import Mathlib

/-!
Verification of the literature-research API scraper's harvesting engine.

The definitions below are a shallow embedding of the Python sources:
  * `ScienceDirect_retrieval_woAbs.py` — search, pagination, DOI dedup
    (`make_request`, the main query loop, `seen_dois`/`all_results`);
  * `ScienceDirect_retrieval_abs_on_doi.py` — per-DOI metadata enrichment
    (`get_metadata_by_doi`, the merge loop, the audit log);
  * `Springer_retrieval.py` — single-query pagination over the Springer API.

Network interaction is modelled by a scripted oracle: a list (or function)
of `HttpAttempt`s, one consumed per outbound request.  Python exceptions
are modelled with `Except` (an `Except.error` is an exception escaping the
function); a `return None` is `Except.ok none`.
-/

namespace Scraper

/-- A harvested record.  The code treats items as opaque dicts and only
inspects `item.get("doi")`; `payload` stands for all other fields, so two
records with the same DOI may still differ in content. -/
structure Record where
  doi : Option String
  payload : String
  deriving DecidableEq

/-- The natural key the code actually deduplicates on: `item.get("doi")`
followed by Python truthiness (`if doi and ...`), so a missing DOI and an
empty-string DOI are both "no key". -/
def keyOf (r : Record) : Option String :=
  match r.doi with
  | none => none
  | some d => if d = "" then none else some d

/-- The accumulator state of the main loop in `ScienceDirect_retrieval_woAbs.py`:
`seen_dois` (a set, modelled as a list of keys) and `all_results`. -/
structure AccState where
  seen_dois : List String
  all_results : List Record
  deriving DecidableEq

def accInit : AccState := ⟨[], []⟩

/-- One iteration of the per-item loop (lines 116–120 and 128–132 of
`ScienceDirect_retrieval_woAbs.py`):
`if doi and doi not in seen_dois: seen_dois.add(doi); all_results.append(item)`.
Note that an item whose DOI is missing or empty is neither tracked nor
appended. -/
def addItem (s : AccState) (item : Record) : AccState :=
  match keyOf item with
  | none => s
  | some d =>
      if d ∈ s.seen_dois then s
      else ⟨d :: s.seen_dois, s.all_results ++ [item]⟩

/-- Feeding a whole page (or run) of items through the accumulator. -/
def runAccum (s : AccState) (items : List Record) : AccState :=
  items.foldl addItem s

/-- Membership in `seen_dois` only grows. -/
lemma addItem_seen_mono (s : AccState) (x : Record) {k : String}
    (h : k ∈ s.seen_dois) : k ∈ (addItem s x).seen_dois := by
  unfold addItem
  cases hx : keyOf x with
  | none => exact h
  | some d =>
      by_cases hd : d ∈ s.seen_dois
      · simpa [hd]
      · simp [hd]
        exact Or.inr h

/-- Once a key is seen, no record carrying that key is ever appended:
every key-`k` record in the output was already in the input state. -/
lemma runAccum_no_new_key (items : List Record) :
    ∀ (s : AccState) (k : String) (r : Record), k ∈ s.seen_dois →
      r ∈ (runAccum s items).all_results → keyOf r = some k →
      r ∈ s.all_results := by
  induction items with
  | nil => intro s k r _ hr _; simpa [runAccum] using hr
  | cons x xs ih =>
      intro s k r hk hr hkey
      have hr' : r ∈ (runAccum (addItem s x) xs).all_results := by
        simpa [runAccum] using hr
      have hk' : k ∈ (addItem s x).seen_dois := addItem_seen_mono s x hk
      have hmem := ih (addItem s x) k r hk' hr' hkey
      unfold addItem at hmem
      cases hx : keyOf x with
      | none => rw [hx] at hmem; exact hmem
      | some d =>
          rw [hx] at hmem
          by_cases hd : d ∈ s.seen_dois
          · simpa [hd] using hmem
          · simp [hd] at hmem
            rcases hmem with hmem | hmem
            · exact hmem
            · subst hmem
              rw [hkey] at hx
              injection hx with hdk
              exact absurd (hdk ▸ hk) hd

/-- First-seen wins: a record with key `k` in the output is the first
input item with key `k`, provided the starting state has not seen `k`
and carries no key-`k` record. -/
lemma runAccum_first_wins (items : List Record) :
    ∀ (s : AccState) (k : String) (r : Record),
      (∀ r' ∈ s.all_results, keyOf r' ≠ some k) → k ∉ s.seen_dois →
      r ∈ (runAccum s items).all_results → keyOf r = some k →
      items.find? (fun x => keyOf x == some k) = some r := by
  induction items with
  | nil =>
      intro s k r hclean hk hr hkey
      have : r ∈ s.all_results := by simpa [runAccum] using hr
      exact absurd hkey (hclean r this)
  | cons x xs ih =>
      intro s k r hclean hk hr hkey
      have hr' : r ∈ (runAccum (addItem s x) xs).all_results := by
        simpa [runAccum] using hr
      by_cases hxk : keyOf x = some k
      · -- x is the first item with key k; it gets appended and k recorded,
        -- so r must be x.
        have hstep : addItem s x =
            ⟨k :: s.seen_dois, s.all_results ++ [x]⟩ := by
          unfold addItem
          rw [hxk]
          simp [hk]
        have hkseen : k ∈ (addItem s x).seen_dois := by
          rw [hstep]; exact List.mem_cons_self _ _
        have hrin : r ∈ (addItem s x).all_results :=
          runAccum_no_new_key xs (addItem s x) k r hkseen hr' hkey
        rw [hstep] at hrin
        simp at hrin
        rcases hrin with hrin | hrin
        · exact absurd hkey (hclean r hrin)
        · subst hrin
          simp [List.find?, hxk]
      · -- x does not carry key k: the head is skipped by find? and the
        -- state stays clean for k.
        have hbx : (keyOf x == some k) = false := by
          simp only [beq_eq_false_iff_ne, ne_eq]
          exact hxk
        have hfind : ((x :: xs).find? (fun y => keyOf y == some k)) =
            xs.find? (fun y => keyOf y == some k) := by
          simp only [List.find?, hbx]
        rw [hfind]
        have hclean' : ∀ r' ∈ (addItem s x).all_results, keyOf r' ≠ some k := by
          intro r' hr'mem
          unfold addItem at hr'mem
          cases hx : keyOf x with
          | none => rw [hx] at hr'mem; exact hclean r' hr'mem
          | some d =>
              rw [hx] at hr'mem
              by_cases hd : d ∈ s.seen_dois
              · simp [hd] at hr'mem; exact hclean r' hr'mem
              · simp [hd] at hr'mem
                rcases hr'mem with hm | hm
                · exact hclean r' hm
                · subst hm; rw [hx]
                  intro hcon
                  exact hxk (hx.trans hcon)
        have hk' : k ∉ (addItem s x).seen_dois := by
          unfold addItem
          cases hx : keyOf x with
          | none => exact hk
          | some d =>
              by_cases hd : d ∈ s.seen_dois
              · simpa [hd] using hk
              · simp [hd]
                refine ⟨?_, hk⟩
                intro hcon
                exact hxk (by rw [hx, hcon])
        exact ih (addItem s x) k r hclean' hk' hr' hkey

/-- Key-count invariant: the number of key-`k` records never exceeds one,
and is zero while `k` is unseen. -/
lemma runAccum_count_inv (items : List Record) :
    ∀ (s : AccState) (k : String),
      (s.all_results.countP (fun r => keyOf r == some k) ≤ 1) →
      (k ∉ s.seen_dois → s.all_results.countP (fun r => keyOf r == some k) = 0) →
      ((runAccum s items).all_results.countP (fun r => keyOf r == some k) ≤ 1) := by
  induction items with
  | nil => intro s k h1 _; simpa [runAccum] using h1
  | cons x xs ih =>
      intro s k h1 h2
      have step1 : (addItem s x).all_results.countP (fun r => keyOf r == some k) ≤ 1 := by
        unfold addItem
        cases hx : keyOf x with
        | none => exact h1
        | some d =>
            by_cases hd : d ∈ s.seen_dois
            · simpa [hd] using h1
            · simp only [hd, if_false]
              rw [List.countP_append]
              by_cases hdk : d = k
              · have hz := h2 (hdk ▸ hd)
                have hone : (List.countP (fun r => keyOf r == some k) [x]) = 1 := by
                  simp [List.countP_cons, hx, hdk]
                omega
              · have hzero : (List.countP (fun r => keyOf r == some k) [x]) = 0 := by
                  simp [List.countP_cons, hx, hdk]
                omega
      have step2 : k ∉ (addItem s x).seen_dois →
          (addItem s x).all_results.countP (fun r => keyOf r == some k) = 0 := by
        intro hkun
        unfold addItem at hkun ⊢
        cases hx : keyOf x with
        | none =>
            rw [hx] at hkun
            exact h2 hkun
        | some d =>
            rw [hx] at hkun
            by_cases hd : d ∈ s.seen_dois
            · simp only [hd, if_true] at hkun ⊢
              exact h2 hkun
            · simp only [hd, if_false] at hkun ⊢
              simp at hkun
              rw [List.countP_append]
              have hz := h2 hkun.2
              have hdk : ¬ d = k := fun h => hkun.1 h.symm
              have hzero : (List.countP (fun r => keyOf r == some k) [x]) = 0 := by
                simp [List.countP_cons, hx, hdk]
              omega
      have := ih (addItem s x) k step1 step2
      simpa [runAccum] using this

/-- The output record list is built by appending a sublist of the inputs. -/
lemma runAccum_sublist (items : List Record) :
    ∀ s : AccState, ∃ t : List Record,
      (runAccum s items).all_results = s.all_results ++ t ∧ t.Sublist items := by
  induction items with
  | nil => intro s; exact ⟨[], by simp [runAccum]⟩
  | cons x xs ih =>
      intro s
      rcases ih (addItem s x) with ⟨t, ht, hsub⟩
      simp only [runAccum, List.foldl_cons] at ht ⊢
      cases hx : keyOf x with
      | none =>
          have hstep : addItem s x = s := by unfold addItem; rw [hx]
          rw [hstep] at ht
          rw [hstep]
          exact ⟨t, ht, hsub.cons x⟩
      | some d =>
          by_cases hd : d ∈ s.seen_dois
          · have hstep : addItem s x = s := by unfold addItem; rw [hx]; simp [hd]
            rw [hstep] at ht
            rw [hstep]
            exact ⟨t, ht, hsub.cons x⟩
          · have hstep : addItem s x =
                ⟨d :: s.seen_dois, s.all_results ++ [x]⟩ := by
              unfold addItem; rw [hx]; simp [hd]
            rw [hstep] at ht
            rw [hstep]
            refine ⟨x :: t, ?_, hsub.cons₂ x⟩
            rw [ht]
            simp

/-- Adding the same record twice in a row changes nothing the second time. -/
lemma addItem_idem (s : AccState) (x : Record) :
    addItem (addItem s x) x = addItem s x := by
  unfold addItem
  cases hx : keyOf x with
  | none => rfl
  | some d =>
      by_cases hd : d ∈ s.seen_dois
      · simp [hd]
      · simp [hd]

end Scraper

namespace Scraper

/-- C1: over one harvest run the accumulator keeps at most one record per
non-empty DOI; the record kept for a key is the first one fed in with that
key (later duplicates are dropped even when their content differs); the
output is a subsequence of the input (first-seen insertion order); and
re-adding a record leaves the collection's size unchanged. -/
theorem C1_dedup_accumulator (items : List Record) :
    (∀ k : String,
        (runAccum accInit items).all_results.countP (fun r => keyOf r == some k) ≤ 1) ∧
    (∀ (k : String) (r : Record),
        r ∈ (runAccum accInit items).all_results → keyOf r = some k →
        items.find? (fun x => keyOf x == some k) = some r) ∧
    ((runAccum accInit items).all_results.Sublist items) ∧
    (∀ (s : AccState) (x : Record),
        (addItem (addItem s x) x).all_results.length = (addItem s x).all_results.length) := by
  refine ⟨?_, ?_, ?_, ?_⟩
  · intro k
    exact runAccum_count_inv items accInit k (by simp [accInit]) (fun _ => by simp [accInit])
  · intro k r hr hkey
    exact runAccum_first_wins items accInit k r (by simp [accInit]) (by simp [accInit]) hr hkey
  · rcases runAccum_sublist items accInit with ⟨t, ht, hsub⟩
    rw [ht]
    simpa [accInit] using hsub
  · intro s x
    rw [addItem_idem]

/-- Witness for C1 at a concrete run: two records share DOI "10.1/x" with
different content, plus one distinct record; the first-wins conjunct is
discharged at the concrete input. -/
theorem C1_dedup_accumulator_witness :
    [Record.mk (some "10.1/x") "v1", Record.mk (some "10.1/x") "v2",
      Record.mk (some "10.2/y") "w"].find?
        (fun x => keyOf x == some "10.1/x") = some (Record.mk (some "10.1/x") "v1") :=
  (C1_dedup_accumulator
      [Record.mk (some "10.1/x") "v1", Record.mk (some "10.1/x") "v2",
        Record.mk (some "10.2/y") "w"]).2.1 "10.1/x"
    (Record.mk (some "10.1/x") "v1") (by decide) (by decide)

/-- C2 counterexample: a record with no DOI is fed to the accumulator and
the result set stays empty — the record is silently dropped, contradicting
"the accumulator still accepts the record unconditionally into the result
set". -/
theorem C2_unkeyed_counterexample :
    (runAccum accInit [Record.mk none "orphan"]).all_results = [] := by decide

/-- C2 amended: a record whose DOI is missing or empty is dropped by the
accumulator — it changes neither the result list nor the seen-key set. -/
theorem C2_unkeyed_dropped (s : AccState) (item : Record)
    (h : item.doi = none ∨ item.doi = some "") : addItem s item = s := by
  rcases h with h | h <;> simp [addItem, keyOf, h]

/-- Witness for C2's amended theorem at a concrete keyless record. -/
theorem C2_unkeyed_dropped_witness :
    addItem accInit (Record.mk none "orphan") = accInit :=
  C2_unkeyed_dropped accInit (Record.mk none "orphan") (Or.inl rfl)

/-- One scripted network attempt: either the HTTP library raises a
`RequestException`, or a response arrives with a status code, an optional
`Retry-After` header value, and a body.  `body = some j` means the body is
JSON that parses to payload `j`; `body = none` means `response.json()`
would raise. -/
inductive HttpAttempt where
  | netError (msg : String)
  | resp (status : Nat) (retryAfter : Option String) (body : Option String)

/-- The observable result of one client call: the value returned (or the
exception raised, as `Except.error`), the sleeps performed for 429
handling, and how many attempts (outbound requests) were consumed. -/
structure ClientRun where
  outcome : Except String (Option String)
  waits : List Nat
  used : Nat

/-- Model of Python `int(s)` on a header string: defined on non-empty
all-digit strings, `none` models a raised `ValueError`.  (Signs and
surrounding whitespace, which `int` also accepts, never occur in a
`Retry-After` header and are not modelled.) -/
def pyInt? (s : String) : Option Nat :=
  if s ≠ "" ∧ s.data.all Char.isDigit then
    some (s.data.foldl (fun n c => n * 10 + (c.toNat - 48)) 0)
  else none

/-- `int(response.headers.get("Retry-After", 30))`: default 30 when the
header is absent, otherwise Python `int` on the header string. -/
def retryAfterSecs (ra : Option String) : Option Nat :=
  match ra with
  | none => some 30
  | some s => pyInt? s

/-- `make_request` of `ScienceDirect_retrieval_woAbs.py` (lines 62–79),
run against a script of attempts (one consumed per outbound request):
the `try` wraps only the `requests.put`, so a network error returns
`None`; 200 returns `response.json()` (raising on a malformed body);
429 parses `Retry-After` (raising on a malformed value), sleeps, and
recurses on the same request; any other status prints and returns `None`.
An exhausted script yields `ok none` and is never reached in the theorems
below. -/
def make_request : List HttpAttempt → ClientRun
  | [] => ⟨.ok none, [], 0⟩
  | .netError _ :: _ => ⟨.ok none, [], 1⟩
  | .resp st ra body :: rest =>
      if st = 200 then
        match body with
        | some j => ⟨.ok (some j), [], 1⟩
        | none => ⟨.error "JSONDecodeError", [], 1⟩
      else if st = 429 then
        match retryAfterSecs ra with
        | none => ⟨.error "ValueError", [], 1⟩
        | some w =>
            let r := make_request rest
            ⟨r.outcome, w :: r.waits, r.used + 1⟩
      else ⟨.ok none, [], 1⟩

/-- `get_metadata_by_doi` of `ScienceDirect_retrieval_abs_on_doi.py`
(lines 33–48): a `while retries < MAX_RETRIES` loop with `MAX_RETRIES = 3`.
`requests.get` is *not* inside a `try`, so a network error raises out of
the function; 200 returns `resp.json()`; 429 parses `Retry-After`
(default 30), sleeps, and increments `retries`; any other status breaks
the loop, after which the function returns `None`.  An exhausted script
yields `ok none` and is never reached in the theorems below. -/
def get_metadata_go (retries : Nat) : List HttpAttempt → ClientRun
  | [] => ⟨.ok none, [], 0⟩
  | .netError m :: _ =>
      if retries < 3 then ⟨.error ("RequestException: " ++ m), [], 1⟩
      else ⟨.ok none, [], 0⟩
  | .resp st ra body :: rest =>
      if retries < 3 then
        if st = 200 then
          match body with
          | some j => ⟨.ok (some j), [], 1⟩
          | none => ⟨.error "JSONDecodeError", [], 1⟩
        else if st = 429 then
          match retryAfterSecs ra with
          | none => ⟨.error "ValueError", [], 1⟩
          | some w =>
              let r := get_metadata_go (retries + 1) rest
              ⟨r.outcome, w :: r.waits, r.used + 1⟩
        else ⟨.ok none, [], 1⟩
      else ⟨.ok none, [], 0⟩

def get_metadata (script : List HttpAttempt) : ClientRun :=
  get_metadata_go 0 script

/-- A 429 whose retry-after hint parses to `w` makes `make_request` wait
`w` seconds and re-issue the request on the rest of the script. -/
lemma mr_429_step (ra : Option String) (b : Option String)
    (rest : List HttpAttempt) (w : Nat) (h : retryAfterSecs ra = some w) :
    make_request (HttpAttempt.resp 429 ra b :: rest) =
      ⟨(make_request rest).outcome, w :: (make_request rest).waits,
        (make_request rest).used + 1⟩ := by
  simp [make_request, h]

/-- Same step for `get_metadata_by_doi`, but consuming one retry. -/
lemma gm_429_step (retries : Nat) (hr : retries < 3) (ra : Option String)
    (b : Option String) (rest : List HttpAttempt) (w : Nat)
    (h : retryAfterSecs ra = some w) :
    get_metadata_go retries (HttpAttempt.resp 429 ra b :: rest) =
      ⟨(get_metadata_go (retries + 1) rest).outcome,
        w :: (get_metadata_go (retries + 1) rest).waits,
        (get_metadata_go (retries + 1) rest).used + 1⟩ := by
  simp [get_metadata_go, hr, h]

/-- With the retry budget exhausted, `get_metadata_by_doi` returns `None`
without issuing any request. -/
lemma gm_exhaust (script : List HttpAttempt) :
    get_metadata_go 3 script = ⟨.ok none, [], 0⟩ := by
  cases script with
  | nil => rfl
  | cons a rest =>
      cases a with
      | netError m => simp [get_metadata_go]
      | resp st ra b => simp [get_metadata_go]

end Scraper

namespace Scraper

/-- C4 as amended: in the search client `make_request`, any run of `k`
429 responses is handled by waiting the retry-after hint each time
(default 30 when the header is absent) and re-issuing the request — the
outcome is whatever the first non-429 response yields, never a Failure
caused by the 429s, with no bound on `k`.  In the metadata client
`get_metadata_by_doi`, however, each 429 wait consumes one of the 3
total attempts, so 3 consecutive 429s yield `None` (a Failure). -/
theorem C4_rate_limit_handling :
    (∀ (k : Nat) (rest : List HttpAttempt),
        make_request (List.replicate k (HttpAttempt.resp 429 none none) ++ rest) =
          ⟨(make_request rest).outcome,
            List.replicate k 30 ++ (make_request rest).waits,
            (make_request rest).used + k⟩) ∧
    (∀ rest : List HttpAttempt,
        get_metadata (List.replicate 3 (HttpAttempt.resp 429 none none) ++ rest) =
          ⟨.ok none, [30, 30, 30], 3⟩) ∧
    (∀ (s : String) (w : Nat) (b : Option String) (rest : List HttpAttempt),
        pyInt? s = some w →
        make_request (HttpAttempt.resp 429 (some s) b :: rest) =
          ⟨(make_request rest).outcome, w :: (make_request rest).waits,
            (make_request rest).used + 1⟩) := by
  refine ⟨?_, ?_, ?_⟩
  · intro k rest
    induction k with
    | zero => simp
    | succ n ih =>
        rw [List.replicate_succ, List.cons_append,
          mr_429_step none none _ 30 rfl, ih]
        simp [List.replicate_succ, Nat.add_assoc]
  · intro rest
    show get_metadata_go 0 (HttpAttempt.resp 429 none none ::
      HttpAttempt.resp 429 none none :: HttpAttempt.resp 429 none none :: rest) = _
    rw [gm_429_step 0 (by decide) none none _ 30 rfl,
      gm_429_step 1 (by decide) none none _ 30 rfl,
      gm_429_step 2 (by decide) none none _ 30 rfl,
      gm_exhaust rest]
  · intro s w b rest h
    exact mr_429_step (some s) b rest w h

/-- Witness for C4's amended theorem: `Retry-After: 5` on a 429 causes a
single wait of 5 seconds before the re-issued request resolves. -/
theorem C4_rate_limit_handling_witness :
    make_request [HttpAttempt.resp 429 (some "5") none] =
      ⟨Except.ok none, [5], 1⟩ :=
  C4_rate_limit_handling.2.2 "5" 5 none [] rfl

/-- C4 counterexample: 3 consecutive 429 responses to
`get_metadata_by_doi` exhaust the retry budget and surface as a `None`
Failure, contradicting "429-driven retries are unbounded — they count
against no retry budget ... and a 429 is never surfaced to the caller as
a Failure". -/
theorem C4_429_budget_counterexample :
    (get_metadata [HttpAttempt.resp 429 none none, HttpAttempt.resp 429 none none,
        HttpAttempt.resp 429 none none]).outcome = Except.ok none ∧
    (get_metadata [HttpAttempt.resp 429 none none, HttpAttempt.resp 429 none none,
        HttpAttempt.resp 429 none none]).used = 3 := by
  constructor
  · rw [get_metadata, gm_429_step 0 (by decide) none none _ 30 rfl,
      gm_429_step 1 (by decide) none none _ 30 rfl,
      gm_429_step 2 (by decide) none none _ 30 rfl, gm_exhaust]
  · rw [get_metadata, gm_429_step 0 (by decide) none none _ 30 rfl,
      gm_429_step 1 (by decide) none none _ 30 rfl,
      gm_429_step 2 (by decide) none none _ 30 rfl, gm_exhaust]

/-- C5 counterexample: a 500 response produces a Failure (`None`) after
exactly 1 attempt in both clients — the claimed 3-attempt bounded retry
does not exist; `get_metadata_by_doi`'s `MAX_RETRIES` loop `break`s on
the first non-200/non-429 status, and `make_request` returns `None`
immediately. -/
theorem C5_retry_budget_counterexample :
    (get_metadata [HttpAttempt.resp 500 none (some "server error"),
        HttpAttempt.resp 500 none (some "server error"),
        HttpAttempt.resp 500 none (some "server error")]).used = 1 ∧
    (get_metadata [HttpAttempt.resp 500 none (some "server error"),
        HttpAttempt.resp 500 none (some "server error"),
        HttpAttempt.resp 500 none (some "server error")]).outcome = Except.ok none ∧
    (make_request [HttpAttempt.resp 500 none (some "server error"),
        HttpAttempt.resp 500 none (some "server error"),
        HttpAttempt.resp 500 none (some "server error")]).used = 1 :=
  ⟨rfl, rfl, rfl⟩

/-- C5 as amended: a non-200, non-429 response makes both clients return
`None` immediately after a single attempt — there is no bounded retry for
such statuses; likewise a network failure makes `make_request` return
`None` after a single attempt (the `MAX_RETRIES = 3` budget of the
metadata client bounds only 429-driven retries). -/
theorem C5_no_retry_on_error (st : Nat) (ra : Option String) (b : Option String)
    (rest : List HttpAttempt) (m : String)
    (h200 : st ≠ 200) (h429 : st ≠ 429) :
    make_request (HttpAttempt.resp st ra b :: rest) = ⟨.ok none, [], 1⟩ ∧
    get_metadata (HttpAttempt.resp st ra b :: rest) = ⟨.ok none, [], 1⟩ ∧
    make_request (HttpAttempt.netError m :: rest) = ⟨.ok none, [], 1⟩ := by
  refine ⟨?_, ?_, rfl⟩
  · simp [make_request, h200, h429]
  · simp [get_metadata, get_metadata_go, h200, h429]

/-- Witness for C5's amended theorem at a concrete 503 response. -/
theorem C5_no_retry_on_error_witness :
    make_request [HttpAttempt.resp 503 none none] = ⟨.ok none, [], 1⟩ :=
  (C5_no_retry_on_error 503 none none [] "conn reset" (by decide) (by decide)).1

/-- C9 counterexample: a 429 response whose `Retry-After` header does not
parse as an integer makes `make_request` raise a `ValueError` past its
boundary (`int(response.headers.get("Retry-After", 30))` is outside the
`try`), contradicting "never propagated as a raised exception". -/
theorem C9_exception_counterexample :
    (make_request [HttpAttempt.resp 429 (some "soon") none]).outcome =
      Except.error "ValueError" := rfl

/-- C9 as amended: `make_request` returns `None` as an ordinary value on
network errors and non-200/non-429 statuses, but it raises on a 429 with
a malformed `Retry-After` value and on a 200 whose body fails to parse;
and `get_metadata_by_doi` lets network errors raise past its boundary
(its `requests.get` is not wrapped in a `try`). -/
theorem C9_exception_boundary :
    (∀ (m : String) (rest : List HttpAttempt),
        (make_request (HttpAttempt.netError m :: rest)).outcome = Except.ok none) ∧
    (∀ (st : Nat) (ra : Option String) (b : Option String) (rest : List HttpAttempt),
        st ≠ 200 → st ≠ 429 →
        (make_request (HttpAttempt.resp st ra b :: rest)).outcome = Except.ok none) ∧
    (∀ (s : String) (b : Option String) (rest : List HttpAttempt),
        pyInt? s = none →
        (make_request (HttpAttempt.resp 429 (some s) b :: rest)).outcome =
          Except.error "ValueError") ∧
    (∀ (ra : Option String) (rest : List HttpAttempt),
        (make_request (HttpAttempt.resp 200 ra none :: rest)).outcome =
          Except.error "JSONDecodeError") ∧
    (∀ (m : String) (rest : List HttpAttempt),
        (get_metadata (HttpAttempt.netError m :: rest)).outcome =
          Except.error ("RequestException: " ++ m)) := by
  refine ⟨fun m rest => rfl, ?_, ?_, fun ra rest => rfl, fun m rest => rfl⟩
  · intro st ra b rest h200 h429
    simp [make_request, h200, h429]
  · intro s b rest h
    simp [make_request, retryAfterSecs, h]

/-- Witness for C9's amended theorem at a concrete 404 response. -/
theorem C9_exception_boundary_witness :
    (make_request [HttpAttempt.resp 404 none (some "not found")]).outcome =
      Except.ok none :=
  C9_exception_boundary.2.1 404 none (some "not found") [] (by decide) (by decide)

/-- The merge loop's view of one `get_metadata_by_doi` result
(`ScienceDirect_retrieval_abs_on_doi.py`, lines 66–67): either no usable
metadata came back (`None`, or JSON without a truthy `"search-results"`),
or a `"search-results"` object whose `"entry"` list holds the given
entries (each entry abstracted to its payload string). -/
inductive MetaResp where
  | failed
  | entryList (entries : List String)

/-- One merged output element (lines 75–79): the dict
`{"doi": doi, "original": original_entry, "metadata": enriched_entry}`. -/
structure Combined where
  doi : String
  original : Option Record
  metadata : String
  deriving DecidableEq

/-- The audit tag written for a key, read off the lookup outcome
(lines 81, 84, 87). -/
def outcomeTag : MetaResp → String
  | .entryList (_ :: _) => "SUCCESS"
  | .entryList [] => "NO_METADATA"
  | .failed => "FAILED"

/-- The enrichment loop of `ScienceDirect_retrieval_abs_on_doi.py`
(lines 62–89) over the unique DOIs, returning `(merged_results,
log_entries)` in iteration order.  On success the first entry is taken
(`entries[0]`) and the original record is `next((x for x in original_data
if x.get("doi") == doi), None)`; on an empty entry list or a failed
lookup only a log line is produced — nothing is appended to
`merged_results`. -/
def runEnrich (lookup : String → MetaResp) (original_data : List Record) :
    List String → List Combined × List String
  | [] => ([], [])
  | doi :: rest =>
      let r := runEnrich lookup original_data rest
      match lookup doi with
      | .entryList (e :: _) =>
          (⟨doi, original_data.find? (fun x => x.doi == some doi), e⟩ :: r.1,
            (doi ++ ": SUCCESS") :: r.2)
      | .entryList [] => (r.1, (doi ++ ": NO_METADATA") :: r.2)
      | .failed => (r.1, (doi ++ ": FAILED") :: r.2)

/-- Keys absent from the input contribute no merged element. -/
lemma runEnrich_count_notmem (lookup : String → MetaResp)
    (orig : List Record) (dois : List String) (d : String) (hd : d ∉ dois) :
    (runEnrich lookup orig dois).1.countP (fun c => c.doi == d) = 0 := by
  induction dois with
  | nil => rfl
  | cons doi rest ih =>
      have hdr : d ∉ rest := fun h => hd (List.mem_cons_of_mem _ h)
      have hdd : ¬ doi = d := fun h => hd (h ▸ List.mem_cons_self _ _)
      cases hl : lookup doi with
      | failed => simpa [runEnrich, hl] using ih hdr
      | entryList es =>
          cases es with
          | nil => simpa [runEnrich, hl] using ih hdr
          | cons e es' =>
              simp [runEnrich, hl, List.countP_cons, hdd]
              intro a ha
              have h0 := ih hdr
              rw [List.countP_eq_zero] at h0
              simpa using h0 a ha

/-- A concrete lookup table for the spec's {A, B} enrichment scenario:
key "A" yields one entry, key "B" an empty entry list. -/
def lookupAB : String → MetaResp :=
  fun d => if d = "A" then .entryList ["metaA"] else .entryList []

/-- C3 counterexample: with keys {A, B} where lookup(A) returns one entry
and lookup(B) returns an empty entry list, the output holds an enriched
element for A but *no* passthrough element for B — only B's
`NO_METADATA` log line exists.  This contradicts "the output contains
exactly one element for that key — ... or an unenriched passthrough of
the original alone when the lookup fails or returns an empty entry
list". -/
theorem C3_passthrough_counterexample :
    (runEnrich lookupAB [] ["A", "B"]).1 = [⟨"A", none, "metaA"⟩] ∧
    (runEnrich lookupAB [] ["A", "B"]).2 = ["A: SUCCESS", "B: NO_METADATA"] :=
  ⟨rfl, rfl⟩

/-- C3 as amended: per input key the audit log gets exactly one line
`<key>: SUCCESS|NO_METADATA|FAILED` in key-iteration order, but the
merged output contains one element for a key only when its lookup
succeeded with a non-empty entry list (pairing the found original with
the *first* entry); keys whose lookup failed or returned no entries
contribute nothing to the merged output. -/
theorem C3_enrichment_merge (lookup : String → MetaResp)
    (orig : List Record) (dois : List String) :
    ((runEnrich lookup orig dois).2 =
        dois.map (fun d => d ++ ": " ++ outcomeTag (lookup d))) ∧
    (∀ d, dois.Nodup → d ∈ dois →
        (runEnrich lookup orig dois).1.countP (fun c => c.doi == d) =
          (match lookup d with
           | MetaResp.entryList (_ :: _) => 1
           | _ => 0)) ∧
    (∀ c ∈ (runEnrich lookup orig dois).1,
        c.doi ∈ dois ∧
        c.original = orig.find? (fun x => x.doi == some c.doi) ∧
        ∃ es, lookup c.doi = MetaResp.entryList (c.metadata :: es)) := by
  refine ⟨?_, ?_, ?_⟩
  · induction dois with
    | nil => rfl
    | cons doi rest ih =>
        cases hl : lookup doi with
        | failed => simp [runEnrich, hl, ih, outcomeTag, String.append_assoc]
        | entryList es =>
            cases es with
            | nil => simp [runEnrich, hl, ih, outcomeTag, String.append_assoc]
            | cons e es' => simp [runEnrich, hl, ih, outcomeTag, String.append_assoc]
  · intro d hnd hd
    induction dois with
    | nil => cases hd
    | cons doi rest ih =>
        have hndr : rest.Nodup := (List.nodup_cons.mp hnd).2
        have hdoir : doi ∉ rest := (List.nodup_cons.mp hnd).1
        rcases List.mem_cons.mp hd with hdd | hdr
        · subst hdd
          have hzero := runEnrich_count_notmem lookup orig rest d hdoir
          cases hl : lookup d with
          | failed => simpa [runEnrich, hl] using hzero
          | entryList es =>
              cases es with
              | nil => simpa [runEnrich, hl] using hzero
              | cons e es' => simp [runEnrich, hl, List.countP_cons, hzero]
        · have hdd : ¬ doi = d := fun h => hdoir (h ▸ hdr)
          have := ih hndr hdr
          cases hl : lookup doi with
          | failed => simpa [runEnrich, hl] using this
          | entryList es =>
              cases es with
              | nil => simpa [runEnrich, hl] using this
              | cons e es' =>
                  simpa [runEnrich, hl, List.countP_cons, hdd] using this
  · induction dois with
    | nil => intro c hc; cases hc
    | cons doi rest ih =>
        intro c hc
        cases hl : lookup doi with
        | failed =>
            rw [runEnrich] at hc
            simp only [hl] at hc
            rcases ih c hc with ⟨h1, h2, h3⟩
            exact ⟨List.mem_cons_of_mem _ h1, h2, h3⟩
        | entryList es =>
            cases es with
            | nil =>
                rw [runEnrich] at hc
                simp only [hl] at hc
                rcases ih c hc with ⟨h1, h2, h3⟩
                exact ⟨List.mem_cons_of_mem _ h1, h2, h3⟩
            | cons e es' =>
                rw [runEnrich] at hc
                simp only [hl] at hc
                rcases List.mem_cons.mp hc with hc | hc
                · subst hc
                  exact ⟨List.mem_cons_self _ _, rfl, es', hl⟩
                · rcases ih c hc with ⟨h1, h2, h3⟩
                  exact ⟨List.mem_cons_of_mem _ h1, h2, h3⟩

/-- Witness for C3's amended theorem at the concrete {A, B} scenario:
exactly one merged element carries key "A". -/
theorem C3_enrichment_merge_witness :
    (runEnrich lookupAB [] ["A", "B"]).1.countP (fun c => c.doi == "A") = 1 :=
  (C3_enrichment_merge lookupAB [] ["A", "B"]).2.1 "A" (by decide) (by decide)

/-- A page fetch outcome as tested by the ScienceDirect pagination loop:
`fail` models `make_request` returning `None` or JSON without a
`"results"` key; `ok items` a page with its `"results"` list (an empty
list does *not* stop this loop). -/
inductive PageResp where
  | fail
  | ok (items : List Record)

/-- The `while offset < total_results and offset < MAX_RESULTS_PER_QUERY`
loop of `ScienceDirect_retrieval_woAbs.py` (lines 122–135): request the
page at `offset`, break on failure, otherwise dedup-accumulate the page's
items and advance by `show`.  Returns the offsets requested and the final
accumulator.  `fuel` only dominates the iteration count; callers pass
`cap + 1`, which the `offset < cap` guard makes sufficient whenever the
start offset is positive and the stride is at least 1. -/
def sdPagGo (oracle : Nat → PageResp) (total cap ps : Nat) :
    Nat → Nat → AccState → List Nat × AccState
  | 0, _, s => ([], s)
  | fuel + 1, offset, s =>
      if offset < total ∧ offset < cap then
        match oracle offset with
        | .fail => ([offset], s)
        | .ok items =>
            let r := sdPagGo oracle total cap ps fuel (offset + ps) (runAccum s items)
            (offset :: r.1, r.2)
      else ([], s)

/-- One query's page fetching after a successful probe (lines 99–135):
`if total_results == 0: continue` issues no page fetch; otherwise the
first full page is fetched at offset 0 (lines 112–114, abandoning the
query on failure), and the pagination loop starts at `offset = SHOW`. -/
def sdQueryFetches (oracle : Nat → PageResp) (total cap ps : Nat)
    (s : AccState) : List Nat × AccState :=
  if total = 0 then ([], s)
  else
    match oracle 0 with
    | .fail => ([0], s)
    | .ok items =>
        let r := sdPagGo oracle total cap ps (cap + 1) ps (runAccum s items)
        (0 :: r.1, r.2)

/-- The outer `for a, b, c in itertools.product(...)` loop viewed at the
per-query level: each query carries its reported total and its page
oracle; the accumulator threads through all queries.  Returns one request
trace per query. -/
def sdHarvest (cap ps : Nat) :
    List ((Nat → PageResp) × Nat) → AccState → List (List Nat) × AccState
  | [], s => ([], s)
  | q :: qs, s =>
      let r := sdQueryFetches q.1 q.2 cap ps s
      let rest := sdHarvest cap ps qs r.2
      (r.1 :: rest.1, rest.2)

/-- Unfolding: the loop guard fails, no request is made. -/
lemma sdPagGo_eq_stop (oracle : Nat → PageResp) (total cap ps n offset : Nat)
    (s : AccState) (hc : ¬(offset < total ∧ offset < cap)) :
    sdPagGo oracle total cap ps (n + 1) offset s = ([], s) := by
  rw [sdPagGo, if_neg hc]

/-- Unfolding: the guard holds and the page at `offset` fails — the loop
breaks after this one request. -/
lemma sdPagGo_eq_fail (oracle : Nat → PageResp) (total cap ps n offset : Nat)
    (s : AccState) (hc : offset < total ∧ offset < cap)
    (hor : oracle offset = .fail) :
    sdPagGo oracle total cap ps (n + 1) offset s = ([offset], s) := by
  rw [sdPagGo, if_pos hc, hor]

/-- Unfolding: the guard holds and the page at `offset` succeeds — its
items are accumulated and the loop advances by the stride. -/
lemma sdPagGo_eq_ok (oracle : Nat → PageResp) (total cap ps n offset : Nat)
    (s : AccState) (items : List Record) (hc : offset < total ∧ offset < cap)
    (hor : oracle offset = .ok items) :
    sdPagGo oracle total cap ps (n + 1) offset s =
      (offset :: (sdPagGo oracle total cap ps n (offset + ps) (runAccum s items)).1,
        (sdPagGo oracle total cap ps n (offset + ps) (runAccum s items)).2) := by
  rw [sdPagGo, if_pos hc, hor]

/-- Every offset the pagination loop requests satisfies the loop guard. -/
lemma sdPagGo_mem (oracle : Nat → PageResp) (total cap ps : Nat) :
    ∀ (fuel offset : Nat) (s : AccState) (o : Nat),
      o ∈ (sdPagGo oracle total cap ps fuel offset s).1 →
      o < total ∧ o < cap := by
  intro fuel
  induction fuel with
  | zero => intro offset s o ho; cases ho
  | succ n ih =>
      intro offset s o ho
      by_cases hc : offset < total ∧ offset < cap
      · cases hor : oracle offset with
        | fail =>
            rw [sdPagGo_eq_fail oracle total cap ps n offset s hc hor] at ho
            have : o = offset := List.mem_singleton.mp ho
            exact this ▸ hc
        | ok items =>
            rw [sdPagGo_eq_ok oracle total cap ps n offset s items hc hor] at ho
            rcases List.mem_cons.mp ho with h | h
            · exact h ▸ hc
            · exact ih _ _ o h
      · rw [sdPagGo_eq_stop oracle total cap ps n offset s hc] at ho
        cases ho

/-- Requested offsets advance by exactly the page stride, and the trace,
when nonempty, starts at the loop's entry offset. -/
lemma sdPagGo_chain (oracle : Nat → PageResp) (total cap ps : Nat) :
    ∀ (fuel offset : Nat) (s : AccState),
      List.Chain' (fun a b => b = a + ps)
        (sdPagGo oracle total cap ps fuel offset s).1 ∧
      (∀ b t, (sdPagGo oracle total cap ps fuel offset s).1 = b :: t →
        b = offset) := by
  intro fuel
  induction fuel with
  | zero =>
      intro offset s
      exact ⟨List.chain'_nil, by intro b t h; cases h⟩
  | succ n ih =>
      intro offset s
      by_cases hc : offset < total ∧ offset < cap
      · cases hor : oracle offset with
        | fail =>
            rw [sdPagGo_eq_fail oracle total cap ps n offset s hc hor]
            exact ⟨List.chain'_singleton _, by intro b t h; injection h with h1 _; exact h1.symm⟩
        | ok items =>
            rw [sdPagGo_eq_ok oracle total cap ps n offset s items hc hor]
            rcases ih (offset + ps) (runAccum s items) with ⟨hch, hhd⟩
            refine ⟨?_, by intro b t h; injection h with h1 _; exact h1.symm⟩
            cases htl : (sdPagGo oracle total cap ps n (offset + ps) (runAccum s items)).1 with
            | nil => simp
            | cons b t =>
                rw [htl] at hch
                exact List.chain'_cons.mpr ⟨hhd b t htl, hch⟩
      · rw [sdPagGo_eq_stop oracle total cap ps n offset s hc]
        exact ⟨List.chain'_nil, by intro b t h; cases h⟩

/-- The accumulator only grows across a pagination run. -/
lemma sdPagGo_extends (oracle : Nat → PageResp) (total cap ps : Nat) :
    ∀ (fuel offset : Nat) (s : AccState), ∃ t,
      (sdPagGo oracle total cap ps fuel offset s).2.all_results =
        s.all_results ++ t := by
  intro fuel
  induction fuel with
  | zero => intro offset s; exact ⟨[], by simp [sdPagGo]⟩
  | succ n ih =>
      intro offset s
      by_cases hc : offset < total ∧ offset < cap
      · cases hor : oracle offset with
        | fail =>
            rw [sdPagGo_eq_fail oracle total cap ps n offset s hc hor]
            exact ⟨[], by simp⟩
        | ok items =>
            rw [sdPagGo_eq_ok oracle total cap ps n offset s items hc hor]
            rcases runAccum_sublist items s with ⟨u, hu, _⟩
            rcases ih (offset + ps) (runAccum s items) with ⟨t, ht⟩
            exact ⟨u ++ t, by rw [ht, hu, List.append_assoc]⟩
      · rw [sdPagGo_eq_stop oracle total cap ps n offset s hc]
        exact ⟨[], by simp⟩

/-- A failed page fetch ends the pagination trace: the failing offset is
the last offset requested. -/
lemma sdPagGo_fail_last (oracle : Nat → PageResp) (total cap ps : Nat) :
    ∀ (fuel offset : Nat) (s : AccState) (o : Nat), oracle o = .fail →
      o ∈ (sdPagGo oracle total cap ps fuel offset s).1 →
      (sdPagGo oracle total cap ps fuel offset s).1.getLast? = some o := by
  intro fuel
  induction fuel with
  | zero => intro offset s o _ ho; cases ho
  | succ n ih =>
      intro offset s o hfail ho
      by_cases hc : offset < total ∧ offset < cap
      · cases hor : oracle offset with
        | fail =>
            rw [sdPagGo_eq_fail oracle total cap ps n offset s hc hor] at ho ⊢
            have : o = offset := List.mem_singleton.mp ho
            simp [this]
        | ok items =>
            rw [sdPagGo_eq_ok oracle total cap ps n offset s items hc hor] at ho ⊢
            rcases List.mem_cons.mp ho with h | h
            · subst h
              rw [hor] at hfail
              cases hfail
            · have hlast := ih (offset + ps) (runAccum s items) o hfail h
              cases htl : (sdPagGo oracle total cap ps n (offset + ps) (runAccum s items)).1 with
              | nil => rw [htl] at h; cases h
              | cons b t =>
                  rw [htl] at hlast
                  show ((offset : Nat) :: b :: t).getLast? = some o
                  rw [List.getLast?_cons_cons]
                  exact hlast
      · rw [sdPagGo_eq_stop oracle total cap ps n offset s hc] at ho
        cases ho

/-- A Springer page response (`Springer_retrieval.py`, lines 127–148):
`err` is any non-200 status; `okPage recs` a 200 whose JSON carries the
given `"records"` list (a missing `"records"` key is modelled as `[]`,
which the loop's else-branch treats the same way: `break`). -/
inductive SpResp where
  | err
  | okPage (records : List Record)

/-- The `while current_record <= number_results_total` loop of
`Springer_retrieval.py` (lines 118–150): request the page starting at
`current`; on 200 with a non-empty records list extend the results; on
200 with no records `break`; on any error status only print and *skip* —
`current_record += page_size` runs and the next page is still requested.
Returns the requested start positions and the gathered records. -/
def spGo (oracle : Nat → SpResp) (total ps : Nat) :
    Nat → Nat → List Record → List Nat × List Record
  | 0, _, acc => ([], acc)
  | fuel + 1, current, acc =>
      if current ≤ total then
        match oracle current with
        | .okPage (r :: rs) =>
            let nxt := spGo oracle total ps fuel (current + ps) (acc ++ (r :: rs))
            (current :: nxt.1, nxt.2)
        | .okPage [] => ([current], acc)
        | .err =>
            let nxt := spGo oracle total ps fuel (current + ps) acc
            (current :: nxt.1, nxt.2)
      else ([], acc)

/-- The Springer pagination phase after the initial page: it starts at
`current_record = page_size + 1` (line 116). -/
def spPaginate (oracle : Nat → SpResp) (total ps : Nat)
    (initRecs : List Record) : List Nat × List Record :=
  spGo oracle total ps (total + 1) (ps + 1) initRecs

/-- The query oracle used in C6's concrete scenario: every page fetch
succeeds (ScienceDirect's loop does not stop on an empty results list). -/
def allOkEmpty : Nat → PageResp := fun _ => PageResp.ok []

/-- Every offset a query requests is 0 (the first full page) or lies
strictly below both the reported total and the safety cap. -/
lemma sdQueryFetches_mem (oracle : Nat → PageResp) (total cap ps : Nat)
    (s : AccState) (o : Nat) (ho : o ∈ (sdQueryFetches oracle total cap ps s).1) :
    o = 0 ∨ (o < total ∧ o < cap) := by
  unfold sdQueryFetches at ho
  by_cases ht : total = 0
  · rw [if_pos ht] at ho
    cases ho
  · rw [if_neg ht] at ho
    cases hor : oracle 0 with
    | fail =>
        rw [hor] at ho
        exact Or.inl (List.mem_singleton.mp ho)
    | ok items =>
        rw [hor] at ho
        rcases List.mem_cons.mp ho with h | h
        · exact Or.inl h
        · exact Or.inr (sdPagGo_mem oracle total cap ps _ _ _ o h)

end Scraper

namespace Scraper

/-- C6: for a query with reported total T > 0, pages are fetched from
offset 0 advancing by the page stride, every requested offset beyond the
first satisfies `offset < total` and `offset < cap`, and concretely for
T=120, page_size=25, cap=50 exactly the offsets 0 and 25 are requested —
nothing at 50 or beyond. -/
theorem C6_pagination_cap :
    ((sdQueryFetches allOkEmpty 120 50 25 accInit).1 = [0, 25]) ∧
    (∀ (oracle : Nat → PageResp) (total cap ps : Nat) (s : AccState) (o : Nat),
        o ∈ (sdQueryFetches oracle total cap ps s).1 →
        o = 0 ∨ (o < total ∧ o < cap)) ∧
    (∀ (oracle : Nat → PageResp) (total cap ps : Nat) (s : AccState),
        List.Chain' (fun a b => b = a + ps) (sdQueryFetches oracle total cap ps s).1) := by
  refine ⟨by decide, ?_, ?_⟩
  · intro oracle total cap ps s o ho
    exact sdQueryFetches_mem oracle total cap ps s o ho
  · intro oracle total cap ps s
    unfold sdQueryFetches
    by_cases ht : total = 0
    · rw [if_pos ht]
      exact List.chain'_nil
    · rw [if_neg ht]
      cases hor : oracle 0 with
      | fail => exact List.chain'_singleton _
      | ok items =>
          show List.Chain' (fun a b => b = a + ps)
            (0 :: (sdPagGo oracle total cap ps (cap + 1) ps (runAccum s items)).1)
          rcases sdPagGo_chain oracle total cap ps (cap + 1) ps (runAccum s items)
            with ⟨hch, hhd⟩
          cases htl : (sdPagGo oracle total cap ps (cap + 1) ps (runAccum s items)).1 with
          | nil => simp
          | cons b t =>
              rw [htl] at hch
              refine List.chain'_cons.mpr ⟨?_, hch⟩
              have := hhd b t htl
              omega

/-- Witness for C6 at the concrete T=120, cap=50, ps=25 run: offset 25 is
within both the reported total and the cap. -/
theorem C6_pagination_cap_witness :
    (25 : Nat) = 0 ∨ ((25 : Nat) < 120 ∧ (25 : Nat) < 50) :=
  C6_pagination_cap.2.1 allOkEmpty 120 50 25 accInit 25 (by decide)

/-- The Springer oracle of C7's counterexample: the page starting at
record 26 answers with an error status, every other page succeeds with
one record. -/
def spOracleCE : Nat → SpResp :=
  fun c => if c = 26 then SpResp.err else SpResp.okPage [⟨none, "rec"⟩]

/-- C7 counterexample: in the Springer pagination (total=75,
page_size=25) the page at start 26 fails, yet the page at start 51 is
still requested afterwards — the failure is skipped, not a stop,
contradicting "no later page of the same query is requested after the
failure". -/
theorem C7_springer_skip_counterexample :
    spOracleCE 26 = SpResp.err ∧ (spPaginate spOracleCE 75 25 []).1 = [26, 51] :=
  ⟨rfl, rfl⟩

/-- Every query in the harvest loop yields a request trace, failures or
not: the `for` loop never aborts early. -/
lemma sdHarvest_length (cap ps : Nat) :
    ∀ (qs : List ((Nat → PageResp) × Nat)) (s : AccState),
      (sdHarvest cap ps qs s).1.length = qs.length := by
  intro qs
  induction qs with
  | nil => intro s; rfl
  | cons q qs ih => intro s; simp [sdHarvest, ih]

/-- C7 as amended: in the ScienceDirect harvester a failed page fetch is
the last request of its query (pagination stops immediately), the records
gathered before the failure are kept (the accumulator only grows), and
every remaining query is still processed (one request trace per query);
in the Springer harvester, by contrast, a failed page is skipped and the
next page of the same query is still requested. -/
theorem C7_partial_failure (oracle : Nat → PageResp) (total cap ps : Nat)
    (s : AccState) (o : Nat) (sp : Nat → SpResp) (sptotal spps fuel current : Nat)
    (acc : List Record) (qs : List ((Nat → PageResp) × Nat))
    (hfail : oracle o = PageResp.fail)
    (ho : o ∈ (sdQueryFetches oracle total cap ps s).1)
    (hcur : current ≤ sptotal) (herr : sp current = SpResp.err) :
    ((sdQueryFetches oracle total cap ps s).1.getLast? = some o) ∧
    (∃ t, (sdQueryFetches oracle total cap ps s).2.all_results =
        s.all_results ++ t) ∧
    ((sdHarvest cap ps qs s).1.length = qs.length) ∧
    ((spGo sp sptotal spps (fuel + 1) current acc).1 =
      current :: (spGo sp sptotal spps fuel (current + spps) acc).1) := by
  refine ⟨?_, ?_, ?_, ?_⟩
  · unfold sdQueryFetches at ho ⊢
    by_cases ht : total = 0
    · rw [if_pos ht] at ho
      cases ho
    · rw [if_neg ht] at ho ⊢
      cases hor : oracle 0 with
      | fail =>
          rw [hor] at ho
          have : o = 0 := List.mem_singleton.mp ho
          show ([0] : List Nat).getLast? = some o
          simp [this]
      | ok items =>
          rw [hor] at ho
          show (0 :: (sdPagGo oracle total cap ps (cap + 1) ps (runAccum s items)).1).getLast?
              = some o
          rcases List.mem_cons.mp ho with h | h
          · subst h
            rw [hor] at hfail
            cases hfail
          · have hlast := sdPagGo_fail_last oracle total cap ps (cap + 1) ps
              (runAccum s items) o hfail h
            cases htl : (sdPagGo oracle total cap ps (cap + 1) ps (runAccum s items)).1 with
            | nil => rw [htl] at h; cases h
            | cons b t =>
                rw [htl] at hlast
                rw [List.getLast?_cons_cons]
                exact hlast
  · unfold sdQueryFetches
    by_cases ht : total = 0
    · rw [if_pos ht]
      exact ⟨[], by simp⟩
    · rw [if_neg ht]
      cases hor : oracle 0 with
      | fail => exact ⟨[], by simp⟩
      | ok items =>
          show ∃ t, (sdPagGo oracle total cap ps (cap + 1) ps (runAccum s items)).2.all_results
              = s.all_results ++ t
          rcases runAccum_sublist items s with ⟨u, hu, _⟩
          rcases sdPagGo_extends oracle total cap ps (cap + 1) ps (runAccum s items)
            with ⟨t, htx⟩
          exact ⟨u ++ t, by rw [htx, hu, List.append_assoc]⟩
  · exact sdHarvest_length cap ps qs s
  · rw [spGo, if_pos hcur, herr]

/-- Witness for C7's amended theorem: a ScienceDirect query whose page at
offset 25 fails requests exactly [0, 25], keeps its accumulator
monotone, and a failing Springer page at start 26 is followed by a
request at start 51. -/
theorem C7_partial_failure_witness :
    ((sdQueryFetches (fun x => if x = 25 then PageResp.fail else PageResp.ok [])
        120 50 25 accInit).1.getLast? = some 25) ∧
    (∃ t, (sdQueryFetches (fun x => if x = 25 then PageResp.fail else PageResp.ok [])
        120 50 25 accInit).2.all_results = accInit.all_results ++ t) ∧
    ((sdHarvest 50 25 [] accInit).1.length = 0) ∧
    ((spGo spOracleCE 75 25 50 26 []).1 =
      26 :: (spGo spOracleCE 75 25 49 51 []).1) :=
  C7_partial_failure (fun x => if x = 25 then PageResp.fail else PageResp.ok [])
    120 50 25 accInit 25 spOracleCE 75 25 49 26 [] []
    rfl (by decide) (by decide) rfl

/-- Python's `a or b` on an optional count, under truthiness: a missing
field (`None`) and an explicit 0 are both falsy. -/
def pyOrNat (a : Option Nat) (b : Nat) : Nat :=
  match a with
  | some n => if n = 0 then b else n
  | none => b

/-- Line 99 of `ScienceDirect_retrieval_woAbs.py`:
`total_results = check.get("resultsFound") or check.get("totalResults")
or len(check["results"])`. -/
def computeTotal (rf tr : Option Nat) (results : List Record) : Nat :=
  pyOrNat rf (pyOrNat tr results.length)

/-- C10: the probe total is the first truthy value among `resultsFound`,
`totalResults` and the probe page's result count; `resultsFound = 0`
behaves exactly like an absent field; with both count fields absent the
total is the probe page length, and since the probe asks for one result,
a server honouring the page size (≤ 1 result) makes the pagination loop
request nothing beyond the first page. -/
theorem C10_total_fallback :
    (∀ (tr : Option Nat) (results : List Record),
        computeTotal (some 0) tr results = computeTotal none tr results) ∧
    (∀ (tr : Option Nat) (results : List Record) (n : Nat),
        n ≠ 0 → computeTotal (some n) tr results = n) ∧
    (∀ (results : List Record) (m : Nat),
        m ≠ 0 → computeTotal none (some m) results = m) ∧
    (∀ results : List Record, computeTotal none none results = results.length) ∧
    (∀ (results : List Record) (oracle : Nat → PageResp) (cap ps : Nat)
        (s : AccState),
        results.length ≤ 1 → 1 ≤ ps →
        ∀ o ∈ (sdQueryFetches oracle (computeTotal none none results) cap ps s).1,
          o = 0) := by
  refine ⟨fun tr results => rfl, ?_, ?_, fun results => rfl, ?_⟩
  · intro tr results n hn
    simp [computeTotal, pyOrNat, hn]
  · intro results m hm
    simp [computeTotal, pyOrNat, hm]
  · intro results oracle cap ps s hlen hps o ho
    have htot : computeTotal none none results = results.length := rfl
    rw [htot] at ho
    rcases sdQueryFetches_mem oracle results.length cap ps s o ho with h | ⟨h1, h2⟩
    · exact h
    · omega

/-- Witness for C10: an explicit `resultsFound = 5` wins over
`totalResults = 7` and the page length. -/
theorem C10_total_fallback_witness :
    computeTotal (some 5) (some 7) [] = 5 :=
  C10_total_fallback.2.1 (some 7) [] 5 (by decide)

/-- A term wrapped in double quotes, as both retrieval scripts do. -/
def quoteTerm (t : String) : String := "\"" ++ t ++ "\""

/-- Line 90 of `ScienceDirect_retrieval_woAbs.py`:
`query = f'"\x7ba\x7d" AND "\x7bb\x7d" AND "\x7bc\x7d"'`. -/
def renderQuery (a b c : String) : String :=
  quoteTerm a ++ " AND " ++ quoteTerm b ++ " AND " ++ quoteTerm c

/-- `itertools.product(group_A, group_B, group_C)` in Python's
enumeration order: the last group varies fastest, the first slowest. -/
def expand3 (as bs cs : List String) : List (String × String × String) :=
  as.flatMap (fun a => bs.flatMap (fun b => cs.map (fun c => (a, b, c))))

/-- The sequence of rendered query strings the main loop iterates over
(lines 88–91). -/
def allQueries (as bs cs : List String) : List String :=
  (expand3 as bs cs).map (fun t => renderQuery t.1 t.2.1 t.2.2)

/-- `' OR '.join('"' + item + '"' for item in g)` from line 49 of
`Springer_retrieval.py`. -/
def orGroup (g : List String) : String :=
  String.intercalate " OR " (g.map quoteTerm)

/-- The single Springer search string of line 49: a parenthesized
OR-group per term list, AND-joined. -/
def springerSearchString (g1 g2 g3 : List String) : String :=
  "(" ++ orGroup g1 ++ ") AND (" ++ orGroup g2 ++ ") AND (" ++ orGroup g3 ++ ")"

/-- The `manufacturing` term group of `Springer_retrieval.py`, line 44. -/
def manufacturing : List String :=
  ["manufacturing", "Industry 4.0", "industrial AI", "smart factory",
    "cyber-physical systems", "production system"]

/-- The `rai` term group of `Springer_retrieval.py`, line 45. -/
def rai : List String :=
  ["responsible AI", "trustworthy AI", "ethical AI", "explainable AI"]

/-- The `vbe` term group of `Springer_retrieval.py`, line 46. -/
def vbe : List String :=
  ["value-based engineering", "value integration", "value-driven design",
    "value-sensitive design", "design for values", "ethics by design",
    "responsible design", "system design", "design methodology", "design process"]

/-- `group_A` of `ScienceDirect_retrieval_woAbs.py`, lines 32–37. -/
def group_A : List String :=
  ["responsible AI", "trustworthy AI", "ethical AI", "explainable AI"]

/-- `group_B` of `ScienceDirect_retrieval_woAbs.py`, lines 39–46. -/
def group_B : List String :=
  ["cyber-physical systems", "manufacturing", "Industry 4.0", "smart factory",
    "production system", "Industrial AI"]

/-- `group_C` of `ScienceDirect_retrieval_woAbs.py`, lines 48–59. -/
def group_C : List String :=
  ["value-based engineering", "value integration", "value-driven design",
    "value-sensitive design", "design for values", "ethics by design",
    "responsible design", "system design", "design methodology", "design process"]

/-- A bind whose blocks all have length `k` has length `l.length * k`. -/
lemma bind_length_const {α β : Type} (f : α → List β) (k : Nat)
    (h : ∀ a, (f a).length = k) :
    ∀ l : List α, (l.flatMap f).length = l.length * k := by
  intro l
  induction l with
  | nil => simp
  | cons a t ih =>
      rw [List.flatMap_cons, List.length_append, h a, ih, List.length_cons]
      ring

/-- Indexing into a bind of constant-length blocks: position `i * k + j`
falls in the `i`-th block at inner position `j`. -/
lemma bind_get_const {α β : Type} (f : α → List β) (k : Nat)
    (h : ∀ a, (f a).length = k) :
    ∀ (l : List α) (i j : Nat) (hi : i < l.length), j < k →
      (l.flatMap f).get? (i * k + j) = (f (l.get ⟨i, hi⟩)).get? j := by
  intro l
  induction l with
  | nil => intro i j hi _; exact absurd hi (Nat.not_lt_zero i)
  | cons a t ih =>
      intro i j hi hj
      cases i with
      | zero =>
          rw [List.flatMap_cons, Nat.zero_mul, Nat.zero_add]
          exact List.get?_append (by rw [h a]; exact hj)
      | succ m =>
          rw [List.flatMap_cons]
          have hidx : (m + 1) * k + j = (f a).length + (m * k + j) := by
            rw [h a]; ring
          rw [hidx, List.get?_append_right (by omega)]
          have hsub : (f a).length + (m * k + j) - (f a).length = m * k + j := by
            omega
          rw [hsub]
          exact ih m j (Nat.lt_of_succ_lt_succ hi) hj

/-- The cross-product element at mixed-radix position
`(i * |bs| + j) * |cs| + k` is the triple of the `i`-th, `j`-th and
`k`-th terms. -/
lemma expand3_get (as bs cs : List String) (i j k : Nat)
    (hi : i < as.length) (hj : j < bs.length) (hk : k < cs.length) :
    (expand3 as bs cs).get? ((i * bs.length + j) * cs.length + k) =
      some (as.get ⟨i, hi⟩, bs.get ⟨j, hj⟩, cs.get ⟨k, hk⟩) := by
  have hinner : ∀ (a : String) (b : String),
      ((cs.map (fun c => (a, b, c))).length) = cs.length := by
    intro a b; exact List.length_map _ _
  have houter : ∀ a : String,
      ((bs.flatMap (fun b => cs.map (fun c => (a, b, c)))).length) =
        bs.length * cs.length := by
    intro a
    exact bind_length_const _ cs.length (hinner a) bs
  have hidx : (i * bs.length + j) * cs.length + k =
      i * (bs.length * cs.length) + (j * cs.length + k) := by ring
  have hjk : j * cs.length + k < bs.length * cs.length := by
    have h1 : j * cs.length + k < (j + 1) * cs.length := by
      rw [Nat.succ_mul]; omega
    have h2 : (j + 1) * cs.length ≤ bs.length * cs.length :=
      Nat.mul_le_mul_right _ hj
    omega
  rw [expand3, hidx,
    bind_get_const _ (bs.length * cs.length) houter as i (j * cs.length + k) hi hjk,
    bind_get_const _ cs.length (hinner _) bs j k hj hk,
    List.get?_map, List.get?_eq_get hk]
  rfl

set_option maxRecDepth 8000 in
/-- C8: query expansion is the full cross-product — as many queries as
the product of the group sizes, enumerated lexicographically with the
first group varying slowest (the query at mixed-radix position
`(i·|B| + j)·|C| + k` pairs the i-th, j-th and k-th terms, rendered as an
AND-joined conjunction of double-quoted terms); no combination is skipped
or filtered; and the Springer single-query form is the AND-joined
conjunction of parenthesized OR-groups of the quoted terms. -/
theorem C8_query_expansion :
    (∀ as bs cs : List String,
        (allQueries as bs cs).length = as.length * bs.length * cs.length) ∧
    (∀ (as bs cs : List String) (i j k : Nat)
        (hi : i < as.length) (hj : j < bs.length) (hk : k < cs.length),
        (allQueries as bs cs).get? ((i * bs.length + j) * cs.length + k) =
          some (renderQuery (as.get ⟨i, hi⟩) (bs.get ⟨j, hj⟩) (cs.get ⟨k, hk⟩))) ∧
    (∀ (as bs cs : List String) (a b c : String),
        (a, b, c) ∈ expand3 as bs cs ↔ (a ∈ as ∧ b ∈ bs ∧ c ∈ cs)) ∧
    (springerSearchString manufacturing rai vbe =
      "(\"manufacturing\" OR \"Industry 4.0\" OR \"industrial AI\" OR \"smart factory\" OR \"cyber-physical systems\" OR \"production system\") AND (\"responsible AI\" OR \"trustworthy AI\" OR \"ethical AI\" OR \"explainable AI\") AND (\"value-based engineering\" OR \"value integration\" OR \"value-driven design\" OR \"value-sensitive design\" OR \"design for values\" OR \"ethics by design\" OR \"responsible design\" OR \"system design\" OR \"design methodology\" OR \"design process\")") := by
  refine ⟨?_, ?_, ?_, ?_⟩
  · intro as bs cs
    have hinner : ∀ a : String,
        ((bs.flatMap (fun b => cs.map (fun c => (a, b, c)))).length) =
          bs.length * cs.length := by
      intro a
      exact bind_length_const _ cs.length (fun b => List.length_map _ _) bs
    rw [allQueries, List.length_map, expand3,
      bind_length_const _ (bs.length * cs.length) hinner as, Nat.mul_assoc]
  · intro as bs cs i j k hi hj hk
    rw [allQueries, List.get?_map, expand3_get as bs cs i j k hi hj hk]
    rfl
  · intro as bs cs a b c
    simp only [expand3, List.mem_flatMap, List.mem_map]
    constructor
    · rintro ⟨x, hx, y, hy, z, hz, hz2⟩
      obtain ⟨rfl, rfl, rfl⟩ := Prod.mk.injEq .. ▸ hz2
      exact ⟨hx, hy, hz⟩
    · rintro ⟨ha, hb, hc⟩
      exact ⟨a, ha, b, hb, c, hc, rfl⟩
  · rfl

/-- Witness for C8 at the ScienceDirect source groups: the query at
position (1·6 + 2)·10 + 3 = 83 combines the 2nd, 3rd and 4th terms. -/
theorem C8_query_expansion_witness :
    (allQueries group_A group_B group_C).get? 83 =
      some (renderQuery "trustworthy AI" "Industry 4.0" "value-sensitive design") :=
  C8_query_expansion.2.1 group_A group_B group_C 1 2 3
    (by decide) (by decide) (by decide)

end Scraper
